import Mathlib

/-!
Verification of the joysticktv-receipt-bot event pipeline.

Shallow embedding of the Go sources:
* the event classifier and append-only stream-event store
  (`ExtractEventInfo`, `IsStreamEvent`, `StoreEvent`);
* the WebSocket read loop and its routing (`outputEvent`, `listenLoop`,
  `thumbRouting`);
* the thumbnail cache (`getSubdirectory`, `extractExtension`,
  `GetFilePath`, `NeedsRefresh`, `downloadImageFile`, `DownloadAndStore`).

Decoded JSON messages (Go `map[string]interface{}` values produced by
`encoding/json`) are modelled by the inductive type `JVal`; objects are
association lists looked up with first-match semantics, matching Go map
access on decoded JSON.  External library functions (the JSON parser used
for the `metadata` string, `json.Marshal`, `crypto/sha256`, `net/url.Parse`)
are abstracted as function parameters; everything else is translated
directly from the source.  The SQLite tables are modelled as lists of rows,
the cache directory as an association list from paths to byte lists, and
wall-clock time as an integer Unix-seconds value supplied by the
environment.
-/

/-- JSON value as decoded by Go `encoding/json` into `interface\x7b\x7d`. -/
inductive JVal where
  | str (s : String)
  | num (n : Int)
  | boolean (b : Bool)
  | null
  | obj (fields : List (String × JVal))
  | arr (elems : List JVal)

/-- Decoded JSON object: Go `map[string]interface\x7b\x7d`. -/
abbrev JObj := List (String × JVal)

/-- Lookup of `m[k]` on a decoded JSON object (first binding wins). -/
def getField (m : JObj) (k : String) : Option JVal :=
  match m with
  | [] => none
  | (k2, v) :: rest => if k2 = k then some v else getField rest k

/-- Go type assertion `v.(string)` on an optional field. -/
def asString : Option JVal → Option String
  | some (JVal.str s) => some s
  | _ => none

/-- Go type assertion `v.(map[string]interface\x7b\x7d)` on an optional field. -/
def asObj : Option JVal → Option JObj
  | some (JVal.obj o) => some o
  | _ => none

/-- Actor-resolution block of `ExtractEventInfo` (part_000 lines 44-64):
prefer `author.slug`, fall back to `author.username`, then to the `who`
field of the JSON-parsed `metadata` string.  `parse` abstracts
`json.Unmarshal` on the metadata string. -/
def extractUserCode (parse : String → Option JObj) (message : JObj) : Option String :=
  let fromAuthor :=
    match asObj (getField message "author") with
    | some author =>
      match asString (getField author "slug") with
      | some slug =>
        if slug ≠ "" then some slug
        else
          match asString (getField author "username") with
          | some username => if username ≠ "" then some username else none
          | none => none
      | none =>
        match asString (getField author "username") with
        | some username => if username ≠ "" then some username else none
        | none => none
    | none => none
  match fromAuthor with
  | some u => some u
  | none =>
    match asString (getField message "metadata") with
    | some metadata =>
      if metadata ≠ "" then
        match parse metadata with
        | some metadataObj =>
          match asString (getField metadataObj "who") with
          | some who => if who ≠ "" then some who else none
          | none => none
        | none => none
      else none
    | none => none

/-- `ExtractEventInfo` (part_000 lines 33-83): returns
`some (eventType, user)` when extraction succeeds, `none` otherwise. -/
def ExtractEventInfo (parse : String → Option JObj) (msg : JObj) :
    Option (String × Option String) :=
  let nested := asObj (getField msg "message")
  let eventType :=
    match nested with
    | some message =>
      match asString (getField message "type") with
      | some t => if t ≠ "" then t else ""
      | none => ""
    | none => ""
  let user :=
    match nested with
    | some message => extractUserCode parse message
    | none => none
  if eventType ≠ "" then some (eventType, user)
  else
    match asString (getField msg "type") with
    | some t => some (t, none)
    | none =>
      match asString (getField msg "event") with
      | some e => some (e, user)
      | none => none

/-- `IsStreamEvent` (part_000 lines 86-93). -/
def IsStreamEvent (msg : JObj) : Bool :=
  match asObj (getField msg "message") with
  | some message =>
    match asString (getField message "event") with
    | some e => e = "StreamEvent"
    | none => false
  | none => false

/-- Row of the `stream_events` table. -/
structure StreamEventRow where
  receivedTimestamp : Int
  eventType : String
  userWhoPerformedAction : Option String
  rawJSON : String

/-- `StoreEvent` (part_000 lines 97-133).  `marshal` abstracts
`json.Marshal` (total on decoded JSON values); `now` is
`time.Now().Unix()`; the table is the `stream_events` table, to which the
SQL INSERT appends one row. -/
def StoreEvent (marshal : JObj → String) (parse : String → Option JObj)
    (now : Int) (msg : JObj) (table : List StreamEventRow) :
    Except String (List StreamEventRow) :=
  if ¬ IsStreamEvent msg then Except.ok table
  else
    match ExtractEventInfo parse msg with
    | none => Except.error "unable to extract event information from message"
    | some (eventType, user) =>
      Except.ok (table ++ [⟨now, eventType, user, marshal msg⟩])

/-- Helper for the spec-side actor resolution: a present-but-empty string
is treated as absent. -/
def nonEmptyStr : Option String → Option String
  | some s => if s = "" then none else some s
  | none => none

/-- Spec-side accessor: `author.key` as a string field of `message`. -/
def authorField (message : JObj) (key : String) : Option String :=
  (asObj (getField message "author")).bind (fun a => asString (getField a key))

/-- Spec-side accessor: the `who` field of the JSON-parsed non-empty
`metadata` string of `message`. -/
def metadataWho (parse : String → Option JObj) (message : JObj) : Option String :=
  ((nonEmptyStr (asString (getField message "metadata"))).bind parse).bind
    (fun o => asString (getField o "who"))

/-- Spec-side actor resolution, following the spec text: priority
`author.slug` over `author.username` over `metadata.who`, first match wins,
a present-but-empty string at any level is treated as absent and falls
through to the next level. -/
def actorResolutionSpec (parse : String → Option JObj) (message : JObj) :
    Option String :=
  match nonEmptyStr (authorField message "slug") with
  | some s => some s
  | none =>
    match nonEmptyStr (authorField message "username") with
    | some u => some u
    | none => nonEmptyStr (metadataWho parse message)

/-- Concrete scenario message of claim C1:
message.event = StreamEvent, message.type = Followed, author.slug = tyrm. -/
def msgFollowed : JObj :=
  [("message", JVal.obj
    [("event", JVal.str "StreamEvent"),
     ("type", JVal.str "Followed"),
     ("author", JVal.obj [("slug", JVal.str "tyrm")])])]

/-- Durable message carrying no type information at all: nested
message.event = StreamEvent and nothing else. -/
def msgBare : JObj := [("message", JVal.obj [("event", JVal.str "StreamEvent")])]

/-- Message whose only field is a present-but-empty top-level type. -/
def msgEmptyType : JObj := [("type", JVal.str "")]

/-- Thumbnail-routing step of `outputEvent` (part_003 lines 131-153):
returns `some (thumbURL, username)` when a thumbnail download is
dispatched for the message, `none` otherwise.  Note the code assigns
`username = slug` whenever the `slug` field is present as a string, with
no emptiness check, and `author.username` is then never consulted. -/
def thumbRouting (msg : JObj) : Option (String × String) :=
  match asObj (getField msg "message") with
  | some message =>
    match asObj (getField message "author") with
    | some author =>
      match asString (getField author "signedPhotoThumbUrl") with
      | some thumbURL =>
        if thumbURL ≠ "" then
          let username :=
            match asString (getField author "slug") with
            | some slug => slug
            | none =>
              match asString (getField author "username") with
              | some usr => usr
              | none => "unknown"
          some (thumbURL, username)
        else none
      | none => none
    | none => none
  | none => none

/-- Observable action taken by `outputEvent` for one message. -/
inductive OutAction where
  | confirmLog
  | rejectLog
  | pingIgnore
  | rawEvent (thumb : Option (String × String))
  deriving DecidableEq

/-- `outputEvent` (part_003 lines 113-163): control types are intercepted
and produce only a log line; every other message is routed (possible
thumbnail dispatch) and output as a raw event. -/
def outputEvent (msg : JObj) : OutAction :=
  match asString (getField msg "type") with
  | some "confirm_subscription" => OutAction.confirmLog
  | some "reject_subscription" => OutAction.rejectLog
  | some "ping" => OutAction.pingIgnore
  | _ => OutAction.rawEvent (thumbRouting msg)

/-- Read loop of `ConnectToWebSocket` (part_003 lines 100-109): each
successfully read frame is handed to `outputEvent` and the loop
continues; only a read error (modelled by the end of the input list)
leaves the Listening state. -/
def listenLoop : List JObj → List OutAction
  | [] => []
  | msg :: rest => outputEvent msg :: listenLoop rest

/-- Concrete reject_subscription control frame. -/
def rejectMsg : JObj := [("type", JVal.str "reject_subscription")]

/-- Concrete follow-style frame carrying an author thumbnail. -/
def followMsg : JObj :=
  [("message", JVal.obj
    [("author", JVal.obj
      [("slug", JVal.str "bob"),
       ("signedPhotoThumbUrl", JVal.str "http://example/t.png")])])]

/-- Concrete frame of claim C10: author has slug equal to the empty string
and a non-empty username. -/
def msgSlugEmpty : JObj :=
  [("message", JVal.obj
    [("author", JVal.obj
      [("slug", JVal.str ""),
       ("username", JVal.str "bob"),
       ("signedPhotoThumbUrl", JVal.str "http://example/t.png")])])]

/-- UTF-8 byte size of one rune: Go `len` on the one-rune string. -/
def charBytes (c : Char) : Nat :=
  if c.toNat < 0x80 then 1
  else if c.toNat < 0x800 then 2
  else if c.toNat < 0x10000 then 3
  else 4

/-- Go byte length of a string (`len` in Go counts UTF-8 bytes). -/
def goByteLen (l : List Char) : Nat := (l.map charBytes).sum

/-- Modelled from Go `unicode.ToLower` (the simple case mapping applied
rune-wise by `strings.ToLower`): ASCII capitals map down by 32; outside
ASCII the only code points whose simple lowercase is an ASCII letter are
U+0130 (Latin capital I with dot above, to i) and U+212A (Kelvin sign,
to k).  All other mappings stay outside the ASCII range a-z and are
modelled as the identity, which the functions below cannot distinguish
from the true mapping: they only test whether the result lies in a-z and
only keep the result when it does. -/
def goToLower (c : Char) : Char :=
  if 65 ≤ c.toNat ∧ c.toNat ≤ 90 then Char.ofNat (c.toNat + 32)
  else if c.toNat = 0x130 then 'i'
  else if c.toNat = 0x212A then 'k'
  else c

/-- Go `strings.ToLower`: the simple case mapping applied to every rune. -/
def goToLowerList (l : List Char) : List Char := l.map goToLower

/-- Upper bound on the UTF-8 size of any rune whose simple lowercase is
the ASCII rune `t`: only U+0130 (2 bytes) lowers to i and only U+212A
(3 bytes) lowers to k; every other ASCII target is reached from ASCII
runes only. -/
def lowerBound (t : Char) : Nat :=
  if t = 'i' then 2 else if t = 'k' then 3 else 1

/-- `getSubdirectory` (thumbcache.go lines 103-123): lowercased first rune
when the result is between "a" and "z" (on one-rune strings Go byte-wise
string comparison coincides with code-point comparison), else "other". -/
def getSubdirectory (username : String) : String :=
  if username = "" then "other"
  else
    match username.data with
    | [] => "other"
    | c :: _ =>
      let firstChar := goToLower c
      if 97 ≤ firstChar.toNat ∧ firstChar.toNat ≤ 122 then String.mk [firstChar]
      else "other"

/-- Claimed shard function, following the claim text of C8: the lowercased
first character when that character is an ASCII letter, the fixed overflow
shard otherwise. -/
def shardClaim (username : String) : String :=
  match username.data with
  | [] => "other"
  | c :: _ =>
    if (97 ≤ c.toNat ∧ c.toNat ≤ 122) ∨ (65 ≤ c.toNat ∧ c.toNat ≤ 90) then
      String.mk [if 65 ≤ c.toNat ∧ c.toNat ≤ 90 then Char.ofNat (c.toNat + 32) else c]
    else "other"

/-- Amended shard function: as claimed for ASCII letters, but additionally
the Kelvin sign U+212A shards to "k" and U+0130 shards to "i", because
their Unicode simple lowercase is an ASCII letter. -/
def shardSpecAmended (username : String) : String :=
  match username.data with
  | [] => "other"
  | c :: _ =>
    if (97 ≤ c.toNat ∧ c.toNat ≤ 122) ∨ (65 ≤ c.toNat ∧ c.toNat ≤ 90) then
      String.mk [if 65 ≤ c.toNat ∧ c.toNat ≤ 90 then Char.ofNat (c.toNat + 32) else c]
    else if c.toNat = 0x212A then "k"
    else if c.toNat = 0x130 then "i"
    else "other"

/-- Suffix of `l` after its last occurrence of `sep`, or `none` when `sep`
does not occur (the last element of Go `strings.Split(l, sep)` when a
separator is present). -/
def afterLast (sep : Char) : List Char → Option (List Char)
  | [] => none
  | c :: rest =>
    match afterLast sep rest with
    | some r => some r
    | none => if c = sep then some rest else none

/-- Drop the trailing path separators, as the first loop of
`filepath.Base` does. -/
def dropTrailingSlashes (l : List Char) : List Char :=
  (l.reverse.dropWhile (fun c => c = '/')).reverse

/-- Go `filepath.Base` on a Unix path: empty path is ".", trailing
slashes are stripped, the component after the last slash is kept, and an
all-slash path is "/". -/
def goBase (path : String) : String :=
  if path = "" then "."
  else
    let l := dropTrailingSlashes path.data
    let last :=
      match afterLast '/' l with
      | some r => r
      | none => l
    if last = [] then "/" else String.mk last

/-- Whitelisted image extensions of `extractExtension`. -/
def extWhitelist : List (List Char) :=
  ["jpg".data, "jpeg".data, "png".data, "gif".data, "webp".data,
   "bmp".data, "tiff".data, "svg".data]

/-- Core of `extractExtension` (thumbcache.go lines 136-159), applied to
the path component of the parsed URL: base name, presence of a dot, the
part after the last dot, a byte-length guard of at most 5, lowercasing,
and the whitelist switch; ".png" in every other case. -/
def extractExtensionFromPath (path : String) : String :=
  if path = "" then ".png"
  else
    let lastPart := goBase path
    if lastPart.data.contains '.' then
      match afterLast '.' lastPart.data with
      | some ext =>
        if 0 < goByteLen ext ∧ goByteLen ext ≤ 5 then
          let low := goToLowerList ext
          if extWhitelist.contains low then "." ++ String.mk low else ".png"
        else ".png"
      | none => ".png"
    else ".png"

/-- `extractExtension` (thumbcache.go lines 128-160).  `parseURL`
abstracts `net/url.Parse`, yielding the path component of the URL or
`none` on a parse error. -/
def extractExtension (parseURL : String → Option String) (imageURL : String) :
    String :=
  match parseURL imageURL with
  | none => ".png"
  | some path => extractExtensionFromPath path

/-- Spec-side extension function, following the claim text of C8: the
extension is the (lowercased) suffix after the last dot of the path's base
name when that suffix is in the fixed whitelist of image extensions, and
".png" when absent or unrecognized. -/
def extensionSpecPath (path : String) : String :=
  if path = "" then ".png"
  else
    match afterLast '.' (goBase path).data with
    | none => ".png"
    | some ext =>
      let low := goToLowerList ext
      if extWhitelist.contains low then "." ++ String.mk low else ".png"

/-- Spec-side extension function on full URLs. -/
def extensionSpecURL (parseURL : String → Option String) (imageURL : String) :
    String :=
  match parseURL imageURL with
  | none => ".png"
  | some path => extensionSpecPath path

/-- Row of the `thumbnails` table. -/
structure ThumbRow where
  username : String
  sha256 : String
  fileSize : Int
  downloadTimestamp : Int
  imageURL : String
  fileExtension : String

/-- State owned by the thumbnail cache: the `thumbnails` table and the
on-disk cache directory, the latter as an association list from file
paths to byte lists. -/
structure CacheState where
  table : List ThumbRow
  fs : List (String × List Nat)

/-- Environment of one `DownloadAndStore` call: the abstracted SHA-256
hex digest, the abstracted `net/url.Parse` path extraction, the current
Unix time, the HTTP response for the image URL (transport error, or
status code with body bytes), and fault-injection flags for the write of
the fetched bytes (`io.Copy`) and for the backing store's INSERT and
UPDATE statements. -/
structure Env where
  hash : List Nat → String
  urlPath : String → Option String
  now : Int
  http : Except String (Nat × List Nat)
  copyFails : Bool
  dbInsertFails : Bool
  dbUpdateFails : Bool

/-- Bytes of the file at `p`, or `none` when no such file exists. -/
def fsGet (fs : List (String × List Nat)) (p : String) : Option (List Nat) :=
  match fs with
  | [] => none
  | (q, b) :: rest => if q = p then some b else fsGet rest p

/-- Remove the file at `p` (`os.Remove`). -/
def fsRemove (fs : List (String × List Nat)) (p : String) :
    List (String × List Nat) :=
  match fs with
  | [] => []
  | e :: rest => if e.1 = p then fsRemove rest p else e :: fsRemove rest p

/-- Write `b` to the file at `p`, replacing any previous contents
(`os.Create` followed by writing). -/
def fsSet (fs : List (String × List Nat)) (p : String) (b : List Nat) :
    List (String × List Nat) :=
  (p, b) :: fsRemove fs p

/-- Row of the `thumbnails` table for `u`, or `none`
(`SELECT ... WHERE username = ?`). -/
def tableGet (t : List ThumbRow) (u : String) : Option ThumbRow :=
  match t with
  | [] => none
  | r :: rest => if r.username = u then some r else tableGet rest u

/-- `ThumbnailExists` (database.go lines 148-163). -/
def ThumbnailExists (t : List ThumbRow) (u : String) : Bool :=
  (tableGet t u).isSome

/-- `GetThumbnailInfo` (database.go lines 166-195). -/
def GetThumbnailInfo (t : List ThumbRow) (u : String) : Option ThumbRow :=
  tableGet t u

/-- `NeedsRefresh` (database.go lines 198-211): true when the record
exists and is older than 5 minutes (300 seconds) at time `now`. -/
def NeedsRefresh (now : Int) (t : List ThumbRow) (u : String) : Bool :=
  match GetThumbnailInfo t u with
  | none => false
  | some r => 300 < now - r.downloadTimestamp

/-- `GetFilePath` (database.go lines 291-294): deterministic cache path
`cacheDir/shard/username+extension`. -/
def GetFilePath (cacheDir username extension : String) : String :=
  cacheDir ++ "/" ++ getSubdirectory username ++ "/" ++ username ++ extension

/-- `insertThumbnail` (database.go lines 297-333): the SQL INSERT fails on
a backend error (injected through `env`) or on a UNIQUE-constraint
violation; otherwise it appends the row. -/
def insertThumbnail (env : Env) (t : List ThumbRow) (r : ThumbRow) :
    Except String (List ThumbRow) :=
  if env.dbInsertFails then Except.error "database insert error"
  else if (tableGet t r.username).isSome then
    Except.error ("thumbnail already exists for user " ++ r.username)
  else Except.ok (t ++ [r])

/-- `updateThumbnail` (database.go lines 336-369): the SQL UPDATE fails on
a backend error (injected through `env`) or when no row matches;
otherwise it replaces the row for the username in place. -/
def updateThumbnail (env : Env) (t : List ThumbRow) (r : ThumbRow) :
    Except String (List ThumbRow) :=
  if env.dbUpdateFails then Except.error "database update error"
  else if (tableGet t r.username).isNone then
    Except.error ("no thumbnail found to update for user " ++ r.username)
  else Except.ok (t.map (fun x => if x.username = r.username then r else x))

/-- `downloadImageFile` (database.go lines 373-426): fetch the URL, and on
a 200 response create (truncate) the destination file, copy the body into
it (removing the partial file when the copy fails), then stat the file
and hash its bytes as read back from disk.  The filesystem state is
returned alongside the result because failed attempts leave their
effects behind. -/
def downloadImageFile (env : Env) (cacheDir : String) (st : CacheState)
    (imageURL username extension : String) :
    CacheState × Except String (String × Int × String) :=
  let subdirPath := cacheDir ++ "/" ++ getSubdirectory username
  let filePath := subdirPath ++ "/" ++ username ++ extension
  match env.http with
  | Except.error e =>
    (st, Except.error ("failed to download image from " ++ imageURL ++ ": " ++ e))
  | Except.ok (status, body) =>
    if status ≠ 200 then
      (st, Except.error ("image download failed with HTTP status from " ++ imageURL))
    else
      let fs1 := fsSet st.fs filePath []
      if env.copyFails then
        ({ st with fs := fsRemove fs1 filePath },
         Except.error "failed to write image to file")
      else
        let fs2 := fsSet fs1 filePath body
        match fsGet fs2 filePath with
        | none =>
          ({ st with fs := fsRemove fs2 filePath },
           Except.error "failed to get file info")
        | some bytesOnDisk =>
          ({ st with fs := fs2 },
           Except.ok (filePath, Int.ofNat bytesOnDisk.length, env.hash bytesOnDisk))

/-- Username sanitization at the top of `DownloadAndStore`: the empty
actor maps to the sentinel "unknown". -/
def sanitizeUsername (u : String) : String := if u = "" then "unknown" else u

/-- `DownloadAndStore` (database.go lines 430-507): skip when a record
exists and is fresh; re-download and UPDATE in place when it exists and is
stale; download and INSERT when no record exists.  When the INSERT or
UPDATE fails after the file was written, the file is removed before the
error is returned. -/
def DownloadAndStore (env : Env) (cacheDir : String) (st : CacheState)
    (imageURL username0 : String) : CacheState × Except String Unit :=
  let username := sanitizeUsername username0
  if ThumbnailExists st.table username then
    if ¬ NeedsRefresh env.now st.table username then (st, Except.ok ())
    else
      let extension := extractExtension env.urlPath imageURL
      match downloadImageFile env cacheDir st imageURL username extension with
      | (st1, Except.error e) => (st1, Except.error e)
      | (st1, Except.ok (filePath, fileSize, sha256Hash)) =>
        let record : ThumbRow :=
          ⟨username, sha256Hash, fileSize, env.now, imageURL, extension⟩
        match updateThumbnail env st1.table record with
        | Except.error e =>
          ({ st1 with fs := fsRemove st1.fs filePath }, Except.error e)
        | Except.ok t2 => ({ st1 with table := t2 }, Except.ok ())
  else
    let extension := extractExtension env.urlPath imageURL
    match downloadImageFile env cacheDir st imageURL username extension with
    | (st1, Except.error e) => (st1, Except.error e)
    | (st1, Except.ok (filePath, fileSize, sha256Hash)) =>
      let record : ThumbRow :=
        ⟨username, sha256Hash, fileSize, env.now, imageURL, extension⟩
      match insertThumbnail env st1.table record with
      | Except.error e =>
        ({ st1 with fs := fsRemove st1.fs filePath }, Except.error e)
      | Except.ok t2 => ({ st1 with table := t2 }, Except.ok ())

/-- Environment of a successful download: 200 response, no injected
faults, a URL whose path is "/t.png", at Unix time 1000. -/
def envOk : Env :=
  { hash := fun b => "digest" ++ toString b.length
    urlPath := fun _ => some "/t.png"
    now := 1000
    http := Except.ok (200, [7, 8, 9])
    copyFails := false
    dbInsertFails := false
    dbUpdateFails := false }

/-- Environment whose `io.Copy` fails while writing the fetched bytes. -/
def envWriteFail : Env := { envOk with copyFails := true }

/-- Environment whose metadata INSERT fails. -/
def envInsertFail : Env := { envOk with dbInsertFails := true }

/-- Environment whose metadata UPDATE fails. -/
def envUpdateFail : Env := { envOk with dbUpdateFails := true }

/-- Stale cached record for user bob (downloaded at time 0) together with
the matching cached file on disk. -/
def stBobStale : CacheState :=
  { table := [⟨"bob", "oldsha", 3, 0, "http://old/t.png", ".png"⟩]
    fs := [("cache/b/bob.png", [1, 2, 3])] }

/-- Fresh cached record for user bob (downloaded at time 900, 100 seconds
before `envOk.now`). -/
def stBobFresh : CacheState :=
  { table := [⟨"bob", "oldsha", 3, 900, "http://old/t.png", ".png"⟩]
    fs := [("cache/b/bob.png", [1, 2, 3])] }

/-- Empty cache state. -/
def stEmpty : CacheState := { table := [], fs := [] }

/-- Spec-side accessor: the nested `message.type` field as a string. -/
def nestedTypeOf (msg : JObj) : Option String :=
  (asObj (getField msg "message")).bind (fun m => asString (getField m "type"))

@[simp]
theorem nonEmptyStr_none : nonEmptyStr none = none := rfl

@[simp]
theorem nonEmptyStr_some (s : String) :
    nonEmptyStr (some s) = if s = "" then none else some s := rfl

/-- Helper: the metadata fallback of the actor-resolution block equals the
spec-side `nonEmptyStr (metadataWho parse message)`. -/
theorem metadata_who_eq (parse : String → Option JObj) (message : JObj) :
    (match asString (getField message "metadata") with
      | some metadata =>
        if metadata ≠ "" then
          match parse metadata with
          | some metadataObj =>
            match asString (getField metadataObj "who") with
            | some who => if who ≠ "" then some who else none
            | none => none
          | none => none
        else none
      | none => none)
    = nonEmptyStr (metadataWho parse message) := by
  unfold metadataWho
  cases hM : asString (getField message "metadata") with
  | none => simp [nonEmptyStr]
  | some md =>
    by_cases hmd : md = ""
    · simp [hmd, nonEmptyStr]
    · cases hP : parse md with
      | none => simp [hmd, hP, nonEmptyStr]
      | some o =>
        cases hW : asString (getField o "who") with
        | none => simp [hmd, hP, hW, nonEmptyStr]
        | some who => by_cases hw : who = "" <;> simp [hmd, hP, hW, hw, nonEmptyStr]

/-- C5: Actor resolution in ExtractEventInfo follows the fixed priority
author.slug, then author.username, then the who field of the JSON-parsed
message.metadata string, first match wins; a present-but-empty string at
any priority level is treated as absent and resolution falls through to
the next level.  `extractUserCode` is the actor-resolution block used by
`ExtractEventInfo`; `actorResolutionSpec` is the priority chain written
from the spec text. -/
theorem extract_actor_priority (parse : String → Option JObj) (message : JObj) :
    extractUserCode parse message = actorResolutionSpec parse message := by
  have hMeta := metadata_who_eq parse message
  unfold extractUserCode actorResolutionSpec authorField
  cases hA : asObj (getField message "author") with
  | none =>
    simp only [hA, Option.none_bind, nonEmptyStr_none]
    exact hMeta
  | some author =>
    simp only [hA, Option.some_bind]
    cases hS : asString (getField author "slug") with
    | some slug =>
      by_cases hs : slug = ""
      · simp only [hs, ne_eq, not_true_eq_false, if_false, nonEmptyStr_some,
          if_pos rfl]
        cases hU : asString (getField author "username") with
        | some username =>
          by_cases hu : username = ""
          · simp only [hu, ne_eq, not_true_eq_false, if_false, nonEmptyStr_some,
              if_pos rfl]
            exact hMeta
          · simp [hu, nonEmptyStr]
        | none =>
          simp only [nonEmptyStr_none]
          exact hMeta
      · simp [hs, nonEmptyStr]
    | none =>
      simp only [nonEmptyStr_none]
      cases hU : asString (getField author "username") with
      | some username =>
        by_cases hu : username = ""
        · simp only [hu, ne_eq, not_true_eq_false, if_false, nonEmptyStr_some,
            if_pos rfl]
          exact hMeta
        · simp [hu, nonEmptyStr]
      | none => exact hMeta

/-- Helper: precise failure condition of `ExtractEventInfo`. -/
theorem extractEventInfo_none_iff (parse : String → Option JObj) (msg : JObj) :
    ExtractEventInfo parse msg = none ↔
      (nestedTypeOf msg = none ∨ nestedTypeOf msg = some "") ∧
      asString (getField msg "type") = none ∧
      asString (getField msg "event") = none := by
  unfold ExtractEventInfo nestedTypeOf
  cases hN : asObj (getField msg "message") with
  | none =>
    cases hT : asString (getField msg "type") with
    | some t => simp [hT]
    | none =>
      cases hE : asString (getField msg "event") with
      | some e => simp [hT, hE]
      | none => simp [hT, hE]
  | some m =>
    cases hNT : asString (getField m "type") with
    | some t =>
      by_cases ht : t = ""
      · subst ht
        cases hT : asString (getField msg "type") with
        | some t2 => simp [hNT, hT]
        | none =>
          cases hE : asString (getField msg "event") with
          | some e => simp [hNT, hT, hE]
          | none => simp [hNT, hT, hE]
      · simp [hNT, ht]
    | none =>
      cases hT : asString (getField msg "type") with
      | some t2 => simp [hNT, hT]
      | none =>
        cases hE : asString (getField msg "event") with
        | some e => simp [hNT, hT, hE]
        | none => simp [hNT, hT, hE]

/-- Helper: a successful classification with an empty event type can only
come from a present-but-empty top-level type or event field. -/
theorem extractEventInfo_empty_source (parse : String → Option JObj)
    (msg : JObj) (u : Option String)
    (h : ExtractEventInfo parse msg = some ("", u)) :
    asString (getField msg "type") = some "" ∨
      (asString (getField msg "type") = none ∧
       asString (getField msg "event") = some "") := by
  unfold ExtractEventInfo at h
  cases hN : asObj (getField msg "message") with
  | none =>
    simp only [hN] at h
    cases hT : asString (getField msg "type") with
    | some t =>
      simp [hT] at h
      exact Or.inl (by simp [h.1])
    | none =>
      cases hE : asString (getField msg "event") with
      | some e =>
        simp [hT, hE] at h
        exact Or.inr ⟨rfl, by simp [h.1]⟩
      | none => simp [hT, hE] at h
  | some m =>
    simp only [hN] at h
    cases hNT : asString (getField m "type") with
    | some t =>
      simp only [hNT] at h
      by_cases ht : t = ""
      · subst ht
        simp only [ne_eq, not_true_eq_false, if_false, ite_self] at h
        cases hT : asString (getField msg "type") with
        | some t2 =>
          simp [hT] at h
          exact Or.inl (by simp [h.1])
        | none =>
          cases hE : asString (getField msg "event") with
          | some e =>
            simp [hT, hE] at h
            exact Or.inr ⟨rfl, by simp [h.1]⟩
          | none => simp [hT, hE] at h
      · simp [ht] at h
    | none =>
      simp only [hNT] at h
      simp only [ne_eq, not_true_eq_false, if_false, ite_self] at h
      cases hT : asString (getField msg "type") with
      | some t2 =>
        simp [hT] at h
        exact Or.inl (by simp [h.1])
      | none =>
        cases hE : asString (getField msg "event") with
        | some e =>
          simp [hT, hE] at h
          exact Or.inr ⟨rfl, by simp [h.1]⟩
        | none => simp [hT, hE] at h

/-- C6 counterexample: the message with a present-but-empty top-level
type field classifies successfully with an empty event type, refuting
"for every message on which classification succeeds, the returned event
type is a non-empty string". -/
theorem classification_empty_type_counterexample :
    ExtractEventInfo (fun _ => none) msgEmptyType = some ("", none) := rfl

/-- C6 (amended): the nested message.type only yields a non-empty event
type, but a present top-level type or event string field makes
classification succeed even when that string is empty, so the returned
event type is empty exactly when it came from such a present-but-empty
top-level field; classification fails iff no nested non-empty type, no
top-level type string and no top-level event string is present, and a
message on which classification fails is never appended to the event
store. -/
theorem classification_nonempty_amended (parse : String → Option JObj)
    (msg : JObj) :
    (ExtractEventInfo parse msg = none ↔
      (nestedTypeOf msg = none ∨ nestedTypeOf msg = some "") ∧
      asString (getField msg "type") = none ∧
      asString (getField msg "event") = none)
    ∧ (∀ ty u, ExtractEventInfo parse msg = some (ty, u) → ty = "" →
        asString (getField msg "type") = some "" ∨
        (asString (getField msg "type") = none ∧
         asString (getField msg "event") = some ""))
    ∧ (ExtractEventInfo parse msg = none →
        ∀ (marshal : JObj → String) (now : Int)
          (table t2 : List StreamEventRow),
          StoreEvent marshal parse now msg table = Except.ok t2 → t2 = table) := by
  refine ⟨extractEventInfo_none_iff parse msg, ?_, ?_⟩
  · intro ty u hS hty
    subst hty
    exact extractEventInfo_empty_source parse msg u hS
  · intro hE marshal now table t2 hSt
    unfold StoreEvent at hSt
    by_cases hD : IsStreamEvent msg
    · simp [hD, hE] at hSt
    · simp [hD] at hSt
      exact hSt.symm

/-- Witness for C6: instantiation at the empty-top-level-type message. -/
theorem classification_nonempty_amended_witness :
    asString (getField msgEmptyType "type") = some "" ∨
      (asString (getField msgEmptyType "type") = none ∧
       asString (getField msgEmptyType "event") = some "") :=
  (classification_nonempty_amended (fun _ => none) msgEmptyType).2.1 "" none rfl rfl

/-- C1 counterexample: a message whose nested message.event equals
"StreamEvent" but which carries no type information is durable yet
appends no row: StoreEvent returns an error, refuting "appends exactly
one row if the nested message.event equals StreamEvent". -/
theorem storeEvent_claim_counterexample :
    IsStreamEvent msgBare = true ∧
    StoreEvent (fun _ => "") (fun _ => none) 0 msgBare []
      = Except.error "unable to extract event information from message" :=
  ⟨rfl, rfl⟩

/-- C1 (amended): StoreEvent appends exactly one row (with the extracted
event type and actor and the re-serialized message) iff the message's
nested message.event equals "StreamEvent" AND classification succeeds;
for every non-StreamEvent message it writes nothing and returns success,
and for a StreamEvent message on which classification fails it writes
nothing and returns an error.  The concrete scenario message (StreamEvent,
type Followed, author slug tyrm) is durable and produces exactly one
appended row with event type "Followed" and actor "tyrm". -/
theorem storeEvent_append_amended (marshal : JObj → String)
    (parse : String → Option JObj) (now : Int) (msg : JObj)
    (table : List StreamEventRow) :
    (IsStreamEvent msg = false →
      StoreEvent marshal parse now msg table = Except.ok table)
    ∧ (∀ ty u, IsStreamEvent msg = true →
        ExtractEventInfo parse msg = some (ty, u) →
        StoreEvent marshal parse now msg table
          = Except.ok (table ++ [⟨now, ty, u, marshal msg⟩]))
    ∧ (IsStreamEvent msg = true → ExtractEventInfo parse msg = none →
        StoreEvent marshal parse now msg table
          = Except.error "unable to extract event information from message")
    ∧ (IsStreamEvent msgFollowed = true ∧
       StoreEvent marshal parse now msgFollowed table
         = Except.ok (table ++ [⟨now, "Followed", some "tyrm", marshal msgFollowed⟩])) := by
  refine ⟨?_, ?_, ?_, rfl, rfl⟩
  · intro h
    unfold StoreEvent
    simp [h]
  · intro ty u hD hX
    unfold StoreEvent
    simp [hD, hX]
  · intro hD hX
    unfold StoreEvent
    simp [hD, hX]

/-- Witness for C1: the amended theorem applied to the scenario message. -/
theorem storeEvent_append_amended_witness :
    StoreEvent (fun _ => "raw") (fun _ => none) 5 msgFollowed []
      = Except.ok ([] ++ [⟨5, "Followed", some "tyrm", "raw"⟩]) :=
  (storeEvent_append_amended (fun _ => "raw") (fun _ => none) 5 msgFollowed []).2.1
    "Followed" (some "tyrm") rfl rfl

/-- C7 counterexample: a reject_subscription frame followed by an
ordinary frame.  The read loop processes the second frame (and routes its
thumbnail), refuting "ends the Listening state (the read loop does not
continue to process subsequent messages)". -/
theorem reject_subscription_counterexample :
    listenLoop [rejectMsg, followMsg]
      = [OutAction.rejectLog,
         OutAction.rawEvent (some ("http://example/t.png", "bob"))] ∧
    (listenLoop [rejectMsg, followMsg]).length = 2 :=
  ⟨rfl, rfl⟩

/-- C7 (amended): a message with top-level type "reject_subscription"
received in the Listening state is intercepted before generic routing
(its action is only the authentication-failure log: no thumbnail dispatch
and no raw-event output, so it never reaches the classifier or store),
but it does not end the Listening state: the read loop continues and
processes the subsequent messages exactly as it would without the reject
frame; only a read error (the end of the frame list) leaves Listening. -/
theorem reject_subscription_amended (msg : JObj) (rest : List JObj)
    (h : asString (getField msg "type") = some "reject_subscription") :
    outputEvent msg = OutAction.rejectLog ∧
    listenLoop (msg :: rest) = OutAction.rejectLog :: listenLoop rest := by
  have h1 : outputEvent msg = OutAction.rejectLog := by
    unfold outputEvent
    rw [h]
    rfl
  exact ⟨h1, by simp [listenLoop, h1]⟩

/-- Witness for C7: the amended theorem applied to the concrete reject
frame. -/
theorem reject_subscription_amended_witness :
    outputEvent rejectMsg = OutAction.rejectLog ∧
    listenLoop [rejectMsg] = [OutAction.rejectLog] :=
  reject_subscription_amended rejectMsg [] rfl

/-- C10: in the thumbnail routing of outputEvent a present author.slug is
used as the cache actor even when it is the empty string (author.username
is never consulted), and DownloadAndStore maps the empty actor to the
sentinel "unknown"; for the concrete message with slug "" and username
"bob" the thumbnail is cached under username "unknown". -/
theorem thumb_slug_empty_unknown :
    (∀ (msg m a : JObj) (url : String),
      getField msg "message" = some (JVal.obj m) →
      getField m "author" = some (JVal.obj a) →
      getField a "signedPhotoThumbUrl" = some (JVal.str url) →
      url ≠ "" →
      getField a "slug" = some (JVal.str "") →
      thumbRouting msg = some (url, ""))
    ∧ (∀ (env : Env) (cacheDir : String) (st : CacheState) (imageURL : String),
        DownloadAndStore env cacheDir st imageURL ""
          = DownloadAndStore env cacheDir st imageURL "unknown")
    ∧ thumbRouting msgSlugEmpty = some ("http://example/t.png", "")
    ∧ (∃ r, GetThumbnailInfo
          (DownloadAndStore envOk "cache" stEmpty "http://example/t.png" "").1.table
          "unknown" = some r ∧ r.username = "unknown") := by
  refine ⟨?_, fun env cacheDir st imageURL => rfl, rfl, ?_⟩
  · intro msg m a url hM hA hU hu hS
    simp [thumbRouting, hM, hA, hU, hS, asObj, asString, hu]
  · exact ⟨⟨"unknown", "digest3", 3, 1000, "http://example/t.png", ".png"⟩, rfl, rfl⟩

/-- Witness for C10: the routing component applied at the concrete
message with empty slug and username "bob". -/
theorem thumb_slug_empty_unknown_witness :
    thumbRouting msgSlugEmpty = some ("http://example/t.png", "") :=
  thumb_slug_empty_unknown.1 msgSlugEmpty
    [("author", JVal.obj
      [("slug", JVal.str ""),
       ("username", JVal.str "bob"),
       ("signedPhotoThumbUrl", JVal.str "http://example/t.png")])]
    [("slug", JVal.str ""),
     ("username", JVal.str "bob"),
     ("signedPhotoThumbUrl", JVal.str "http://example/t.png")]
    "http://example/t.png" rfl rfl rfl (by decide) rfl

theorem fsGet_fsSet (fs : List (String × List Nat)) (p : String) (b : List Nat) :
    fsGet (fsSet fs p b) p = some b := by
  simp [fsSet, fsGet]

theorem fsGet_fsRemove (fs : List (String × List Nat)) (p : String) :
    fsGet (fsRemove fs p) p = none := by
  induction fs with
  | nil => rfl
  | cons e rest ih =>
    by_cases he : e.1 = p
    · simp [fsRemove, he, ih]
    · simp [fsRemove, fsGet, he, ih]

theorem tableGet_append_new (t : List ThumbRow) (r : ThumbRow) (u : String)
    (h : tableGet t u = none) (hr : r.username = u) :
    tableGet (t ++ [r]) u = some r := by
  induction t with
  | nil => simp [tableGet, hr]
  | cons x rest ih =>
    by_cases hx : x.username = u
    · simp [tableGet, hx] at h
    · simp only [tableGet, hx, if_false, List.cons_append]
      simp only [tableGet, hx, if_false] at h ⊢
      exact ih h

theorem tableGet_map_replace (t : List ThumbRow) (r : ThumbRow) (u : String)
    (h : (tableGet t u).isSome) (hr : r.username = u) :
    tableGet (t.map (fun x => if x.username = r.username then r else x)) u
      = some r := by
  induction t with
  | nil => simp [tableGet] at h
  | cons x rest ih =>
    by_cases hx : x.username = r.username
    · simp [tableGet, hx, hr]
    · have hxu : ¬ x.username = u := by rw [hr] at hx; exact hx
      simp only [List.map_cons, hx, if_false, tableGet, hxu] at h ⊢
      exact ih h

/-- C3: DownloadAndStore is idempotent within the staleness window: for
every actor with an existing metadata record whose download timestamp is
less than 5 minutes (300 seconds) old, the call performs no download,
leaves the whole cache state (metadata table and files) unchanged and
returns success; the result does not depend on the HTTP response, so no
network request is observable. -/
theorem downloadAndStore_fresh_noop (env : Env) (cacheDir : String)
    (st : CacheState) (imageURL username : String) (r : ThumbRow)
    (hrec : GetThumbnailInfo st.table (sanitizeUsername username) = some r)
    (hfresh : env.now - r.downloadTimestamp < 300) :
    DownloadAndStore env cacheDir st imageURL username = (st, Except.ok ()) := by
  have hex : ThumbnailExists st.table (sanitizeUsername username) = true := by
    unfold ThumbnailExists
    unfold GetThumbnailInfo at hrec
    simp [hrec]
  have hnr : NeedsRefresh env.now st.table (sanitizeUsername username) = false := by
    unfold NeedsRefresh
    rw [hrec]
    simp only [decide_eq_false_iff_not]
    omega
  unfold DownloadAndStore
  simp [hex, hnr]

/-- Witness for C3: the fresh record for bob (100 seconds old) is left
untouched and the call succeeds. -/
theorem downloadAndStore_fresh_noop_witness :
    DownloadAndStore envOk "cache" stBobFresh "http://example/t.png" "bob"
      = (stBobFresh, Except.ok ()) :=
  downloadAndStore_fresh_noop envOk "cache" stBobFresh "http://example/t.png"
    "bob" ⟨"bob", "oldsha", 3, 900, "http://old/t.png", ".png"⟩ rfl (by decide)

theorem downloadImageFile_transport (env : Env) (cacheDir : String)
    (st : CacheState) (imageURL username extension e : String)
    (h : env.http = Except.error e) :
    downloadImageFile env cacheDir st imageURL username extension
      = (st, Except.error ("failed to download image from " ++ imageURL ++ ": " ++ e)) := by
  unfold downloadImageFile
  rw [h]

theorem downloadImageFile_badStatus (env : Env) (cacheDir : String)
    (st : CacheState) (imageURL username extension : String) (status : Nat)
    (body : List Nat) (h : env.http = Except.ok (status, body))
    (hs : status ≠ 200) :
    downloadImageFile env cacheDir st imageURL username extension
      = (st, Except.error ("image download failed with HTTP status from " ++ imageURL)) := by
  unfold downloadImageFile
  rw [h]
  simp [hs]

theorem downloadImageFile_copyFail (env : Env) (cacheDir : String)
    (st : CacheState) (imageURL username extension : String) (body : List Nat)
    (h : env.http = Except.ok (200, body)) (hc : env.copyFails = true) :
    downloadImageFile env cacheDir st imageURL username extension
      = ({ st with
            fs := fsRemove (fsSet st.fs (GetFilePath cacheDir username extension) [])
                    (GetFilePath cacheDir username extension) },
         Except.error "failed to write image to file") := by
  unfold downloadImageFile GetFilePath
  rw [h]
  simp [hc]

theorem downloadImageFile_ok (env : Env) (cacheDir : String) (st : CacheState)
    (imageURL username extension : String) (body : List Nat)
    (h : env.http = Except.ok (200, body)) (hc : env.copyFails = false) :
    downloadImageFile env cacheDir st imageURL username extension
      = ({ st with
            fs := fsSet (fsSet st.fs (GetFilePath cacheDir username extension) [])
                    (GetFilePath cacheDir username extension) body },
         Except.ok (GetFilePath cacheDir username extension,
           Int.ofNat body.length, env.hash body)) := by
  unfold downloadImageFile GetFilePath
  rw [h]
  simp [hc, fsGet_fsSet]

/-- C2: for every completion of DownloadAndStore that performed a
download (no record, or a stale record) and returned success, the
metadata record stored for the (sanitized) actor has a sha256 equal to
the abstracted digest of the bytes of the file on disk at the
deterministic path for that actor and extension, and a stored file size
equal to that file's size. -/
theorem downloadAndStore_sha_integrity (env : Env) (cacheDir : String)
    (st : CacheState) (imageURL username : String)
    (hdl : ThumbnailExists st.table (sanitizeUsername username) = false ∨
           NeedsRefresh env.now st.table (sanitizeUsername username) = true)
    (hok : (DownloadAndStore env cacheDir st imageURL username).2 = Except.ok ()) :
    ∃ bytes r,
      fsGet (DownloadAndStore env cacheDir st imageURL username).1.fs
        (GetFilePath cacheDir (sanitizeUsername username)
          (extractExtension env.urlPath imageURL)) = some bytes ∧
      GetThumbnailInfo (DownloadAndStore env cacheDir st imageURL username).1.table
        (sanitizeUsername username) = some r ∧
      r.sha256 = env.hash bytes ∧
      r.fileSize = Int.ofNat bytes.length ∧
      r.fileExtension = extractExtension env.urlPath imageURL := by
  by_cases hex : ThumbnailExists st.table (sanitizeUsername username) = true
  · have hnr : NeedsRefresh env.now st.table (sanitizeUsername username) = true := by
      rcases hdl with h | h
      · rw [h] at hex
        exact absurd hex (by simp)
      · exact h
    rcases hhttp : env.http with e | p
    · have hd := downloadImageFile_transport env cacheDir st imageURL
        (sanitizeUsername username) (extractExtension env.urlPath imageURL) e hhttp
      unfold DownloadAndStore at hok
      simp [hex, hnr, hd] at hok
    · rcases p with ⟨status, body⟩
      by_cases hs : status = 200
      · subst hs
        by_cases hcp : env.copyFails = true
        · have hd := downloadImageFile_copyFail env cacheDir st imageURL
            (sanitizeUsername username) (extractExtension env.urlPath imageURL)
            body hhttp hcp
          unfold DownloadAndStore at hok
          simp [hex, hnr, hd] at hok
        · have hcpf : env.copyFails = false := by
            exact Bool.not_eq_true _ ▸ (by simpa using hcp)
          have hd := downloadImageFile_ok env cacheDir st imageURL
            (sanitizeUsername username) (extractExtension env.urlPath imageURL)
            body hhttp hcpf
          have hrec : (tableGet st.table (sanitizeUsername username)).isSome := by
            simpa [ThumbnailExists] using hex
          by_cases hdbu : env.dbUpdateFails = true
          · unfold DownloadAndStore at hok
            simp [hex, hnr, hd, updateThumbnail, hdbu] at hok
          · have hdbuf : env.dbUpdateFails = false := by simpa using hdbu
            have hupd : updateThumbnail env st.table
                ⟨sanitizeUsername username, env.hash body, Int.ofNat body.length,
                  env.now, imageURL, extractExtension env.urlPath imageURL⟩
                = Except.ok (st.table.map (fun x =>
                    if x.username = sanitizeUsername username then
                      ⟨sanitizeUsername username, env.hash body, Int.ofNat body.length,
                        env.now, imageURL, extractExtension env.urlPath imageURL⟩
                    else x)) := by
              unfold updateThumbnail
              rw [hdbuf]
              simp only [Bool.false_eq_true, if_false]
              rw [if_neg]
              simp [Option.isNone_iff_eq_none]
              intro hno
              rw [hno] at hrec
              simp at hrec
            have hres : DownloadAndStore env cacheDir st imageURL username
                = ({ table := st.table.map (fun x =>
                      if x.username = sanitizeUsername username then
                        ⟨sanitizeUsername username, env.hash body, Int.ofNat body.length,
                          env.now, imageURL, extractExtension env.urlPath imageURL⟩
                      else x),
                     fs := fsSet (fsSet st.fs
                       (GetFilePath cacheDir (sanitizeUsername username)
                         (extractExtension env.urlPath imageURL)) [])
                       (GetFilePath cacheDir (sanitizeUsername username)
                         (extractExtension env.urlPath imageURL)) body },
                   Except.ok ()) := by
              unfold DownloadAndStore
              simp only [hex, if_true, hnr, Bool.not_true, Bool.false_eq_true,
                not_true, if_false, hd, hupd]
            rw [hres]
            refine ⟨body, ⟨sanitizeUsername username, env.hash body,
              Int.ofNat body.length, env.now, imageURL,
              extractExtension env.urlPath imageURL⟩, ?_, ?_, rfl, rfl, rfl⟩
            · exact fsGet_fsSet _ _ _
            · exact tableGet_map_replace st.table
                ⟨sanitizeUsername username, env.hash body, Int.ofNat body.length,
                  env.now, imageURL, extractExtension env.urlPath imageURL⟩
                (sanitizeUsername username) hrec rfl
      · have hd := downloadImageFile_badStatus env cacheDir st imageURL
          (sanitizeUsername username) (extractExtension env.urlPath imageURL)
          status body hhttp hs
        unfold DownloadAndStore at hok
        simp [hex, hnr, hd] at hok
  · have hexf : ThumbnailExists st.table (sanitizeUsername username) = false := by
      simpa using hex
    have hrecn : tableGet st.table (sanitizeUsername username) = none := by
      have := hexf
      unfold ThumbnailExists at this
      exact Option.not_isSome_iff_eq_none.mp (by simp [this])
    rcases hhttp : env.http with e | p
    · have hd := downloadImageFile_transport env cacheDir st imageURL
        (sanitizeUsername username) (extractExtension env.urlPath imageURL) e hhttp
      unfold DownloadAndStore at hok
      simp [hexf, hd] at hok
    · rcases p with ⟨status, body⟩
      by_cases hs : status = 200
      · subst hs
        by_cases hcp : env.copyFails = true
        · have hd := downloadImageFile_copyFail env cacheDir st imageURL
            (sanitizeUsername username) (extractExtension env.urlPath imageURL)
            body hhttp hcp
          unfold DownloadAndStore at hok
          simp [hexf, hd] at hok
        · have hcpf : env.copyFails = false := by simpa using hcp
          have hd := downloadImageFile_ok env cacheDir st imageURL
            (sanitizeUsername username) (extractExtension env.urlPath imageURL)
            body hhttp hcpf
          by_cases hdbi : env.dbInsertFails = true
          · unfold DownloadAndStore at hok
            simp [hexf, hd, insertThumbnail, hdbi] at hok
          · have hdbif : env.dbInsertFails = false := by simpa using hdbi
            have hins : insertThumbnail env st.table
                ⟨sanitizeUsername username, env.hash body, Int.ofNat body.length,
                  env.now, imageURL, extractExtension env.urlPath imageURL⟩
                = Except.ok (st.table ++
                    [⟨sanitizeUsername username, env.hash body, Int.ofNat body.length,
                      env.now, imageURL, extractExtension env.urlPath imageURL⟩]) := by
              unfold insertThumbnail
              rw [hdbif]
              simp [hrecn]
            have hres : DownloadAndStore env cacheDir st imageURL username
                = ({ table := st.table ++
                      [⟨sanitizeUsername username, env.hash body, Int.ofNat body.length,
                        env.now, imageURL, extractExtension env.urlPath imageURL⟩],
                     fs := fsSet (fsSet st.fs
                       (GetFilePath cacheDir (sanitizeUsername username)
                         (extractExtension env.urlPath imageURL)) [])
                       (GetFilePath cacheDir (sanitizeUsername username)
                         (extractExtension env.urlPath imageURL)) body },
                   Except.ok ()) := by
              unfold DownloadAndStore
              simp only [hexf, Bool.false_eq_true, if_false, hd, hins]
            rw [hres]
            refine ⟨body, ⟨sanitizeUsername username, env.hash body,
              Int.ofNat body.length, env.now, imageURL,
              extractExtension env.urlPath imageURL⟩, ?_, ?_, rfl, rfl, rfl⟩
            · exact fsGet_fsSet _ _ _
            · exact tableGet_append_new st.table
                ⟨sanitizeUsername username, env.hash body, Int.ofNat body.length,
                  env.now, imageURL, extractExtension env.urlPath imageURL⟩
                (sanitizeUsername username) hrecn rfl
      · have hd := downloadImageFile_badStatus env cacheDir st imageURL
          (sanitizeUsername username) (extractExtension env.urlPath imageURL)
          status body hhttp hs
        unfold DownloadAndStore at hok
        simp [hexf, hd] at hok

/-- Witness for C2: a first download for bob stores a record whose digest
and size match the bytes on disk at the deterministic path. -/
theorem downloadAndStore_sha_integrity_witness :
    ∃ bytes r,
      fsGet (DownloadAndStore envOk "cache" stEmpty "http://example/t.png" "bob").1.fs
        (GetFilePath "cache" (sanitizeUsername "bob")
          (extractExtension envOk.urlPath "http://example/t.png")) = some bytes ∧
      GetThumbnailInfo
        (DownloadAndStore envOk "cache" stEmpty "http://example/t.png" "bob").1.table
        (sanitizeUsername "bob") = some r ∧
      r.sha256 = envOk.hash bytes ∧
      r.fileSize = Int.ofNat bytes.length ∧
      r.fileExtension = extractExtension envOk.urlPath "http://example/t.png" :=
  downloadAndStore_sha_integrity envOk "cache" stEmpty "http://example/t.png" "bob"
    (Or.inl rfl) rfl

/-- C4 counterexample: for the stale record of bob, a failure while
writing the fetched bytes removes the previously cached file (os.Create
truncated it and os.Remove then deletes it), refuting "the previously
cached file on disk for that actor remains present with its prior
contents" for the write-failure mode. -/
theorem download_failure_file_loss_counterexample :
    fsGet stBobStale.fs "cache/b/bob.png" = some [1, 2, 3] ∧
    (DownloadAndStore envWriteFail "cache" stBobStale "http://example/t.png" "bob").2
      = Except.error "failed to write image to file" ∧
    fsGet (DownloadAndStore envWriteFail "cache" stBobStale
      "http://example/t.png" "bob").1.fs "cache/b/bob.png" = none :=
  ⟨rfl, rfl, rfl⟩

/-- C4 (amended): for every actor with an existing stale metadata record,
a transport error or a non-2xx HTTP status makes DownloadAndStore return
an error with the whole prior cache state (metadata row and files)
untouched; a failure while writing the fetched bytes also returns an
error and leaves the metadata row unchanged, but the file at the
destination path is removed, so the previously cached file for that actor
is lost whenever it lived at the same destination path. -/
theorem downloadAndStore_failure_amended (env : Env) (cacheDir : String)
    (st : CacheState) (imageURL username : String) (r : ThumbRow)
    (hrec : GetThumbnailInfo st.table (sanitizeUsername username) = some r)
    (hstale : 300 < env.now - r.downloadTimestamp) :
    (∀ e, env.http = Except.error e →
      DownloadAndStore env cacheDir st imageURL username
        = (st, Except.error ("failed to download image from " ++ imageURL ++ ": " ++ e)))
    ∧ (∀ status body, env.http = Except.ok (status, body) → status ≠ 200 →
        DownloadAndStore env cacheDir st imageURL username
          = (st, Except.error ("image download failed with HTTP status from " ++ imageURL)))
    ∧ (∀ body, env.http = Except.ok (200, body) → env.copyFails = true →
        (DownloadAndStore env cacheDir st imageURL username).1.table = st.table ∧
        (∃ e, (DownloadAndStore env cacheDir st imageURL username).2 = Except.error e) ∧
        fsGet (DownloadAndStore env cacheDir st imageURL username).1.fs
          (GetFilePath cacheDir (sanitizeUsername username)
            (extractExtension env.urlPath imageURL)) = none) := by
  have hex : ThumbnailExists st.table (sanitizeUsername username) = true := by
    unfold ThumbnailExists
    unfold GetThumbnailInfo at hrec
    simp [hrec]
  have hnr : NeedsRefresh env.now st.table (sanitizeUsername username) = true := by
    unfold NeedsRefresh
    rw [hrec]
    simp only [decide_eq_true_eq]
    omega
  refine ⟨?_, ?_, ?_⟩
  · intro e hhttp
    have hd := downloadImageFile_transport env cacheDir st imageURL
      (sanitizeUsername username) (extractExtension env.urlPath imageURL) e hhttp
    unfold DownloadAndStore
    simp only [hex, if_true, hnr, Bool.not_true, Bool.false_eq_true, not_true,
      if_false, hd]
  · intro status body hhttp hs
    have hd := downloadImageFile_badStatus env cacheDir st imageURL
      (sanitizeUsername username) (extractExtension env.urlPath imageURL)
      status body hhttp hs
    unfold DownloadAndStore
    simp only [hex, if_true, hnr, Bool.not_true, Bool.false_eq_true, not_true,
      if_false, hd]
  · intro body hhttp hc
    have hd := downloadImageFile_copyFail env cacheDir st imageURL
      (sanitizeUsername username) (extractExtension env.urlPath imageURL)
      body hhttp hc
    have hres : DownloadAndStore env cacheDir st imageURL username
        = ({ st with
              fs := fsRemove (fsSet st.fs
                (GetFilePath cacheDir (sanitizeUsername username)
                  (extractExtension env.urlPath imageURL)) [])
                (GetFilePath cacheDir (sanitizeUsername username)
                  (extractExtension env.urlPath imageURL)) },
           Except.error "failed to write image to file") := by
      unfold DownloadAndStore
      simp only [hex, if_true, hnr, Bool.not_true, Bool.false_eq_true, not_true,
        if_false, hd]
    rw [hres]
    exact ⟨rfl, ⟨_, rfl⟩, fsGet_fsRemove _ _⟩

/-- Witness for C4: the write-failure branch at the concrete stale state
of bob. -/
theorem downloadAndStore_failure_amended_witness :
    (DownloadAndStore envWriteFail "cache" stBobStale
      "http://example/t.png" "bob").1.table = stBobStale.table ∧
    (∃ e, (DownloadAndStore envWriteFail "cache" stBobStale
      "http://example/t.png" "bob").2 = Except.error e) ∧
    fsGet (DownloadAndStore envWriteFail "cache" stBobStale
      "http://example/t.png" "bob").1.fs
      (GetFilePath "cache" (sanitizeUsername "bob")
        (extractExtension envWriteFail.urlPath "http://example/t.png")) = none :=
  (downloadAndStore_failure_amended envWriteFail "cache" stBobStale
    "http://example/t.png" "bob" ⟨"bob", "oldsha", 3, 0, "http://old/t.png", ".png"⟩
    rfl (by decide)).2.2 [7, 8, 9] rfl rfl

/-- C9: when the download succeeded and the file was written but the
subsequent metadata INSERT (first download) or UPDATE (refresh) fails,
DownloadAndStore removes the on-disk file at the destination path before
returning its error, and the metadata table is left unchanged: a failed
upsert never leaves a newly written file without a corresponding index
row. -/
theorem upsert_failure_cleanup (env : Env) (cacheDir : String)
    (st : CacheState) (imageURL username : String) (body : List Nat)
    (hhttp : env.http = Except.ok (200, body)) (hcp : env.copyFails = false) :
    (ThumbnailExists st.table (sanitizeUsername username) = false →
      env.dbInsertFails = true →
      (∃ e, (DownloadAndStore env cacheDir st imageURL username).2 = Except.error e) ∧
      (DownloadAndStore env cacheDir st imageURL username).1.table = st.table ∧
      fsGet (DownloadAndStore env cacheDir st imageURL username).1.fs
        (GetFilePath cacheDir (sanitizeUsername username)
          (extractExtension env.urlPath imageURL)) = none)
    ∧ (ThumbnailExists st.table (sanitizeUsername username) = true →
        NeedsRefresh env.now st.table (sanitizeUsername username) = true →
        env.dbUpdateFails = true →
        (∃ e, (DownloadAndStore env cacheDir st imageURL username).2 = Except.error e) ∧
        (DownloadAndStore env cacheDir st imageURL username).1.table = st.table ∧
        fsGet (DownloadAndStore env cacheDir st imageURL username).1.fs
          (GetFilePath cacheDir (sanitizeUsername username)
            (extractExtension env.urlPath imageURL)) = none) := by
  have hd := downloadImageFile_ok env cacheDir st imageURL
    (sanitizeUsername username) (extractExtension env.urlPath imageURL)
    body hhttp hcp
  constructor
  · intro hexf hdbi
    have hres : DownloadAndStore env cacheDir st imageURL username
        = ({ table := st.table,
             fs := fsRemove (fsSet (fsSet st.fs
               (GetFilePath cacheDir (sanitizeUsername username)
                 (extractExtension env.urlPath imageURL)) [])
               (GetFilePath cacheDir (sanitizeUsername username)
                 (extractExtension env.urlPath imageURL)) body)
               (GetFilePath cacheDir (sanitizeUsername username)
                 (extractExtension env.urlPath imageURL)) },
           Except.error "database insert error") := by
      unfold DownloadAndStore
      simp only [hexf, Bool.false_eq_true, if_false, hd, insertThumbnail, hdbi,
        if_true]
    rw [hres]
    exact ⟨⟨_, rfl⟩, rfl, fsGet_fsRemove _ _⟩
  · intro hex hnr hdbu
    have hres : DownloadAndStore env cacheDir st imageURL username
        = ({ table := st.table,
             fs := fsRemove (fsSet (fsSet st.fs
               (GetFilePath cacheDir (sanitizeUsername username)
                 (extractExtension env.urlPath imageURL)) [])
               (GetFilePath cacheDir (sanitizeUsername username)
                 (extractExtension env.urlPath imageURL)) body)
               (GetFilePath cacheDir (sanitizeUsername username)
                 (extractExtension env.urlPath imageURL)) },
           Except.error "database update error") := by
      unfold DownloadAndStore
      simp only [hex, if_true, hnr, Bool.not_true, Bool.false_eq_true, not_true,
        if_false, hd, updateThumbnail, hdbu]
    rw [hres]
    exact ⟨⟨_, rfl⟩, rfl, fsGet_fsRemove _ _⟩

/-- Witness for C9: a first download for bob whose INSERT fails leaves no
file at the destination path and an unchanged (empty) table. -/
theorem upsert_failure_cleanup_witness :
    (∃ e, (DownloadAndStore envInsertFail "cache" stEmpty
      "http://example/t.png" "bob").2 = Except.error e) ∧
    (DownloadAndStore envInsertFail "cache" stEmpty
      "http://example/t.png" "bob").1.table = stEmpty.table ∧
    fsGet (DownloadAndStore envInsertFail "cache" stEmpty
      "http://example/t.png" "bob").1.fs
      (GetFilePath "cache" (sanitizeUsername "bob")
        (extractExtension envInsertFail.urlPath "http://example/t.png")) = none :=
  (upsert_failure_cleanup envInsertFail "cache" stEmpty "http://example/t.png"
    "bob" [7, 8, 9] rfl rfl).1 rfl rfl

theorem toNat_ofNat_lt (n : Nat) (h : n < 55296) : (Char.ofNat n).toNat = n := by
  unfold Char.ofNat
  rw [dif_pos (Or.inl h)]
  simp [Char.ofNatAux, Char.toNat, UInt32.toNat]

theorem charBytes_pos (c : Char) : 1 ≤ charBytes c := by
  unfold charBytes
  split
  · omega
  · split
    · omega
    · split <;> omega

theorem charBytes_le_lowerBound (c t : Char) (h : goToLower c = t)
    (ht : t.toNat < 128) : charBytes c ≤ lowerBound t := by
  have hlb : 1 ≤ lowerBound t := by
    unfold lowerBound
    split
    · omega
    · split <;> omega
  unfold goToLower at h
  by_cases hAZ : 65 ≤ c.toNat ∧ c.toNat ≤ 90
  · rw [if_pos hAZ] at h
    have : charBytes c = 1 := by
      unfold charBytes
      rw [if_pos (by omega)]
    omega
  · rw [if_neg hAZ] at h
    by_cases h130 : c.toNat = 0x130
    · rw [if_pos h130] at h
      have hti : t = 'i' := h.symm
      have : charBytes c = 2 := by
        unfold charBytes
        rw [if_neg (by omega), if_pos (by omega)]
      rw [this, hti]
      unfold lowerBound
      rw [if_pos rfl]
    · rw [if_neg h130] at h
      by_cases h212A : c.toNat = 0x212A
      · rw [if_pos h212A] at h
        have htk : t = 'k' := h.symm
        have : charBytes c = 3 := by
          unfold charBytes
          rw [if_neg (by omega), if_neg (by omega), if_pos (by omega)]
        rw [this, htk]
        unfold lowerBound
        rw [if_neg (by decide), if_pos rfl]
      · rw [if_neg h212A] at h
        subst h
        have : charBytes c = 1 := by
          unfold charBytes
          rw [if_pos (by omega)]
        omega

theorem goByteLen_le (l w : List Char) (h : l.map goToLower = w)
    (hw : ∀ c ∈ w, c.toNat < 128) :
    goByteLen l ≤ (w.map lowerBound).sum := by
  induction l generalizing w with
  | nil =>
    have hwnil : w = [] := by simpa using h.symm
    subst hwnil
    simp [goByteLen]
  | cons c rest ih =>
    cases w with
    | nil => simp at h
    | cons t ts =>
      simp only [List.map_cons, List.cons.injEq] at h
      obtain ⟨h1, h2⟩ := h
      have hb := charBytes_le_lowerBound c t h1 (hw t (by simp))
      have hrest := ih ts h2 (fun x hx => hw x (by simp [hx]))
      unfold goByteLen at hrest ⊢
      simp only [List.map_cons, List.sum_cons]
      omega

theorem goByteLen_pos (l : List Char) (hne : l ≠ []) : 0 < goByteLen l := by
  cases l with
  | nil => exact absurd rfl hne
  | cons c rest =>
    have := charBytes_pos c
    unfold goByteLen
    simp only [List.map_cons, List.sum_cons]
    omega

theorem wl_byteLen_bound (ext : List Char)
    (h : extWhitelist.contains (goToLowerList ext) = true) :
    0 < goByteLen ext ∧ goByteLen ext ≤ 5 := by
  have hmem : goToLowerList ext ∈ extWhitelist := by
    simpa [List.contains, List.elem_eq_mem] using h
  unfold extWhitelist at hmem
  unfold goToLowerList at hmem
  have hne : ext ≠ [] := by
    intro he
    subst he
    revert hmem
    decide
  refine ⟨goByteLen_pos ext hne, ?_⟩
  simp only [List.mem_cons, List.not_mem_nil, or_false] at hmem
  rcases hmem with h | h | h | h | h | h | h | h <;>
    exact le_trans (goByteLen_le ext _ h (by decide)) (by decide)

theorem afterLast_eq_none_iff (sep : Char) (l : List Char) :
    afterLast sep l = none ↔ ¬ sep ∈ l := by
  induction l with
  | nil => simp [afterLast]
  | cons c rest ih =>
    unfold afterLast
    cases h : afterLast sep rest with
    | some r =>
      have hmem : sep ∈ rest := by
        by_contra hn
        rw [← ih] at hn
        rw [h] at hn
        exact Option.noConfusion hn
      simp [List.mem_cons, hmem]
    | none =>
      have hnm : ¬ sep ∈ rest := ih.mp h
      by_cases hc : c = sep
      · simp [hc]
      · rw [if_neg hc]
        simp [List.mem_cons, hnm]
        exact fun he => hc he.symm

theorem contains_eq_true_of_mem {l : List Char} {a : Char} (h : a ∈ l) :
    l.contains a = true := by
  simp [List.contains, List.elem_eq_mem, h]

theorem extractExtensionFromPath_eq_spec (path : String) :
    extractExtensionFromPath path = extensionSpecPath path := by
  unfold extractExtensionFromPath extensionSpecPath
  by_cases hp : path = ""
  · simp [hp]
  · simp only [hp, if_false]
    cases had : afterLast '.' (goBase path).data with
    | none =>
      have hc : (goBase path).data.contains '.' = false := by
        have := (afterLast_eq_none_iff '.' (goBase path).data).mp had
        simp [List.contains, List.elem_eq_mem, this]
      simp [hc]
    | some ext =>
      have hmem : '.' ∈ (goBase path).data := by
        by_contra hn
        rw [← afterLast_eq_none_iff] at hn
        rw [had] at hn
        exact Option.noConfusion hn
      have hc : (goBase path).data.contains '.' = true :=
        contains_eq_true_of_mem hmem
      simp only [hc, if_true]
      by_cases hwl : extWhitelist.contains (goToLowerList ext) = true
      · have hb := wl_byteLen_bound ext hwl
        simp [hb.1, hb.2, hwl]
      · have hwlf : extWhitelist.contains (goToLowerList ext) = false := by
          simpa using hwl
        have hnm : ¬ goToLowerList ext ∈ extWhitelist := by
          simpa [List.contains, List.elem_eq_mem] using hwl
        by_cases hlen : 0 < goByteLen ext ∧ goByteLen ext ≤ 5 <;>
          simp [hlen, hwlf, hnm]

theorem getSubdirectory_eq_spec (username : String) :
    getSubdirectory username = shardSpecAmended username := by
  unfold getSubdirectory shardSpecAmended
  by_cases h0 : username = ""
  · subst h0
    rfl
  · simp only [h0, if_false]
    cases hd : username.data with
    | nil => rfl
    | cons c rest =>
      simp only []
      by_cases hAZ : 65 ≤ c.toNat ∧ c.toNat ≤ 90
      · have ht : (Char.ofNat (c.toNat + 32)).toNat = c.toNat + 32 :=
          toNat_ofNat_lt _ (by omega)
        have hlow : goToLower c = Char.ofNat (c.toNat + 32) := by
          unfold goToLower
          rw [if_pos hAZ]
        rw [hlow, if_pos (by rw [ht]; omega), if_pos (Or.inr hAZ), if_pos hAZ]
      · by_cases haz : 97 ≤ c.toNat ∧ c.toNat ≤ 122
        · have hlow : goToLower c = c := by
            unfold goToLower
            rw [if_neg hAZ, if_neg (by omega), if_neg (by omega)]
          rw [hlow, if_pos haz, if_pos (Or.inl haz), if_neg hAZ]
        · by_cases h130 : c.toNat = 0x130
          · have hlow : goToLower c = 'i' := by
              unfold goToLower
              rw [if_neg hAZ, if_pos h130]
            rw [hlow, if_pos (by decide), if_neg (by omega), if_neg (by omega),
              if_pos h130]
          · by_cases h212A : c.toNat = 0x212A
            · have hlow : goToLower c = 'k' := by
                unfold goToLower
                rw [if_neg hAZ, if_neg h130, if_pos h212A]
              rw [hlow, if_pos (by decide), if_neg (by omega), if_pos h212A]
            · have hlow : goToLower c = c := by
                unfold goToLower
                rw [if_neg hAZ, if_neg h130, if_neg h212A]
              rw [hlow, if_neg (by omega), if_neg (by omega), if_neg h212A,
                if_neg h130]

/-- C8 counterexample: the Kelvin sign U+212A is not an ASCII letter (and
not a Latin character), yet Go's simple case mapping lowercases it to the
ASCII letter k, so an actor starting with it shards to "k" and not to the
fixed overflow shard, refuting "the fixed overflow shard otherwise (any
actor starting with a digit or non-Latin character)". -/
theorem cache_shard_counterexample :
    getSubdirectory "\u212A" = "k" ∧ shardClaim "\u212A" = "other" ∧
    getSubdirectory "\u212A" ≠ shardClaim "\u212A" := by
  refine ⟨?_, ?_, ?_⟩ <;> decide

/-- C8 (amended): the cache destination path is a pure deterministic
function of actor and URL.  The shard is the lowercased first character
whenever the Unicode simple lowercase of that character is an ASCII
letter: every ASCII letter, and additionally U+212A (Kelvin sign, to
"k") and U+0130 (Latin capital I with dot above, to "i"); every other
first character (digits, other non-Latin characters) goes to the fixed
overflow shard "other", and "Alice" always shards to "a".  The file
extension is the lowercased suffix after the last dot of the URL path's
base name when that lowercased suffix is in the fixed whitelist of image
extensions, and ".png" when the suffix is absent or unrecognized. -/
theorem cache_path_deterministic_amended :
    (∀ username, getSubdirectory username = shardSpecAmended username)
    ∧ (∀ (parseURL : String → Option String) (imageURL : String),
        extractExtension parseURL imageURL = extensionSpecURL parseURL imageURL)
    ∧ getSubdirectory "Alice" = "a" := by
  refine ⟨getSubdirectory_eq_spec, ?_, by decide⟩
  intro parseURL imageURL
  unfold extractExtension extensionSpecURL
  cases parseURL imageURL with
  | none => rfl
  | some path => exact extractExtensionFromPath_eq_spec path
